import Mathlib

/-!
# Verification of the krait manifest core (m1ten/dash)

Shallow embedding of `src/lib/manifest.rs`: the `Manifest` data model, the
SHA-1 digest engine used by generation, the inline merge logic of
`Manifest::gen_manifest`, the `Display` serializer, the mlua-based
`Manifest::parse` deserialization, and the effect sequence of
`Manifest::gen_manifest` (filesystem writes, process exits).

Machine integers are modelled as `Nat` with explicit reduction `% 2^32`
where the Rust code wraps; fallible operations return `Except`; external
I/O outcomes (git queries, directory listings, the Lua interpreter) are
oracle inputs supplied in an environment record.
-/

/- ## Digest engine: SHA-1 (sha1 crate, used at manifest.rs lines 304-324)

The Rust code streams the file bytes into `Sha1::new()` via `std::io::copy`
and renders the 20-byte digest with `format!("{:x}", …)` (lowercase hex).
Functionally this is SHA-1 (FIPS 180-4) of the file's byte sequence; we
embed it over `List Nat` (one `Nat < 256` per byte). -/

/-- Truncate to a 32-bit word (wrapping semantics of `u32`). -/
def w32 (x : Nat) : Nat := x % 4294967296

/-- Rotate a 32-bit word left by `n` bits. -/
def rotl (n x : Nat) : Nat := w32 ((x <<< n) ||| (x >>> (32 - n)))

/-- The SHA-1 round function `f_t` (FIPS 180-4 §4.1.1). Complement is
`xor` with the all-ones 32-bit word. -/
def sha1F (t b c d : Nat) : Nat :=
  if t < 20 then (b &&& c) ||| ((b ^^^ 4294967295) &&& d)
  else if t < 40 then b ^^^ c ^^^ d
  else if t < 60 then (b &&& c) ||| (b &&& d) ||| (c &&& d)
  else b ^^^ c ^^^ d

/-- The SHA-1 round constants `K_t`. -/
def sha1K (t : Nat) : Nat :=
  if t < 20 then 0x5A827999
  else if t < 40 then 0x6ED9EBA1
  else if t < 60 then 0x8F1BBCDC
  else 0xCA62C1D6

/-- SHA-1 padding: append `0x80`, zeros to 56 mod 64, then the 64-bit
big-endian bit length. -/
def sha1Pad (msg : List Nat) : List Nat :=
  let len := msg.length
  let zeros := (119 - (len % 64)) % 64
  let bitLen := len * 8
  msg ++ [128] ++ List.replicate zeros 0 ++
    [(bitLen >>> 56) % 256, (bitLen >>> 48) % 256, (bitLen >>> 40) % 256,
     (bitLen >>> 32) % 256, (bitLen >>> 24) % 256, (bitLen >>> 16) % 256,
     (bitLen >>> 8) % 256, bitLen % 256]

/-- Big-endian packing of bytes into 32-bit words, four at a time. -/
def bytesToWords : List Nat → List Nat
  | b0 :: b1 :: b2 :: b3 :: rest =>
      (b0 * 16777216 + b1 * 65536 + b2 * 256 + b3) :: bytesToWords rest
  | _ => []

/-- Split a word list into 16-word blocks (the padded input is always an
exact multiple of 16 words). -/
def chunk16 : List Nat → List (List Nat)
  | w0 :: w1 :: w2 :: w3 :: w4 :: w5 :: w6 :: w7 ::
    w8 :: w9 :: w10 :: w11 :: w12 :: w13 :: w14 :: w15 :: rest =>
      [w0, w1, w2, w3, w4, w5, w6, w7, w8, w9, w10, w11, w12, w13, w14, w15] :: chunk16 rest
  | _ => []

/-- One step of the message-schedule expansion: append
`rotl 1 (W[n-3] xor W[n-8] xor W[n-14] xor W[n-16])`. -/
def sha1Step (w : List Nat) : List Nat :=
  let n := w.length
  w ++ [rotl 1 ((w.getD (n - 3) 0) ^^^ (w.getD (n - 8) 0) ^^^
                (w.getD (n - 14) 0) ^^^ (w.getD (n - 16) 0))]

/-- Iterate the schedule expansion `k` times. -/
def sha1Expand (w : List Nat) : Nat → List Nat
  | 0 => w
  | Nat.succ k => sha1Expand (sha1Step w) k

/-- 32-bit working state `(a, b, c, d, e)` / chaining value `(h0, …, h4)`. -/
abbrev Sha1St := Nat × Nat × Nat × Nat × Nat

/-- One SHA-1 round: `temp = rotl5 a + f + e + K + W[t]` then shift. -/
def sha1Round (w : List Nat) (st : Sha1St) (t : Nat) : Sha1St :=
  let (a, b, c, d, e) := st
  let temp := w32 (rotl 5 a + sha1F t b c d + e + sha1K t + w.getD t 0)
  (temp, a, rotl 30 b, c, d)

/-- Compress one 16-word block into the chaining state. -/
def sha1Block (h : Sha1St) (block : List Nat) : Sha1St :=
  let w := sha1Expand block 64
  let (a, b, c, d, e) := (List.range 80).foldl (sha1Round w) h
  let (h0, h1, h2, h3, h4) := h
  (w32 (h0 + a), w32 (h1 + b), w32 (h2 + c), w32 (h3 + d), w32 (h4 + e))

/-- The SHA-1 initial chaining value. -/
def sha1Init : Sha1St := (0x67452301, 0xEFCDAB89, 0x98BADCFE, 0x10325476, 0xC3D2E1F0)

/-- The final 5-word SHA-1 state of a byte sequence. -/
def sha1State (msg : List Nat) : Sha1St :=
  (chunk16 (bytesToWords (sha1Pad msg))).foldl sha1Block sha1Init

/-- A lowercase hexadecimal digit. -/
def hexChar (n : Nat) : Char := if n < 10 then Char.ofNat (48 + n) else Char.ofNat (87 + n)

/-- Eight lowercase hex digits of a 32-bit word, most significant first. -/
def wordHex (x : Nat) : List Char :=
  [hexChar ((x >>> 28) % 16), hexChar ((x >>> 24) % 16), hexChar ((x >>> 20) % 16),
   hexChar ((x >>> 16) % 16), hexChar ((x >>> 12) % 16), hexChar ((x >>> 8) % 16),
   hexChar ((x >>> 4) % 16), hexChar (x % 16)]

/-- The digest as the code renders it: `format!("{:x}", hasher.finalize())`,
40 lowercase hex characters. -/
def sha1Hex (msg : List Nat) : String :=
  let (h0, h1, h2, h3, h4) := sha1State msg
  String.mk (wordHex h0 ++ wordHex h1 ++ wordHex h2 ++ wordHex h3 ++ wordHex h4)

/-- The digest read as a single 160-bit number (base-2^32 value of the
final state); `sha1Hex` is a function of this value. -/
def sha1Nat (msg : List Nat) : Nat :=
  let (h0, h1, h2, h3, h4) := sha1State msg
  (((h0 * 4294967296 + h1) * 4294967296 + h2) * 4294967296 + h3) * 4294967296 + h4

/- ## Manifest data model (manifest.rs lines 10-34)

`HashMap<String, _>` is modelled as an association list with unique keys;
the list order models the map's iteration order, which Rust's `HashMap`
does not fix. `i64` is modelled as `Int` (no arithmetic is performed on
`last_update`, so no wrapping is involved). -/

structure ManifestPackageContent where
  name : String
  path : String
  sha1 : String
  url : String
deriving DecidableEq

structure ManifestPackage where
  commit : String
  path : String
  contents : List ManifestPackageContent
deriving DecidableEq

/-- The value type of `packages[name]`: `HashMap<String, Vec<ManifestPackage>>`. -/
abbrev VerMap := List (String × List ManifestPackage)

/-- The type of `packages`: `HashMap<String, HashMap<String, Vec<ManifestPackage>>>`. -/
abbrev PkgMap := List (String × VerMap)

structure Manifest where
  repo : String
  latest_commit : String
  last_update : Int
  packages : PkgMap
deriving DecidableEq

/-- `Manifest::default()` (SmartDefault with no overrides: empty strings,
zero, empty map). -/
def Manifest.defaultValue : Manifest := ⟨"", "", 0, []⟩

/-- `HashMap` lookup on the association-list model. -/
def mapGet {β : Type} (k : String) : List (String × β) → Option β
  | [] => none
  | (k', v) :: rest => if k' = k then some v else mapGet k rest

/-- `HashMap::insert` on the association-list model: replace in place if
the key is present, else append. -/
def mapInsert {β : Type} (k : String) (v : β) : List (String × β) → List (String × β)
  | [] => [(k, v)]
  | (k', v') :: rest => if k' = k then (k, v) :: rest else (k', v') :: mapInsert k v rest

/-- `str::contains` (substring test), used for the `"github"` remote check. -/
def strContains (s pat : String) : Bool :=
  s.data.tails.any (fun t => pat.data.isPrefixOf t)

/- ## Serializer: impl Display for Manifest (manifest.rs lines 397-476)

Transcribed statement by statement, including the stray `]]` and the
never-closed package-name and version tables the Rust code emits. String
fields are spliced with no escaping, exactly as `format!` does. -/

/-- The five lines emitted for one `ManifestPackageContent` (lines 445-459). -/
def contentLines (pn ver ppath : String) (c : ManifestPackageContent) : String :=
  let base := "m.packages[\"" ++ pn ++ "\"][\"" ++ ver ++ "\"][\"" ++ ppath ++
    "\"][\"contents\"][\"" ++ c.name ++ "\"]"
  base ++ " = \x7b\n" ++
  base ++ "[\"path\"] = \"" ++ c.path ++ "\"\n" ++
  base ++ "[\"sha1\"] = \"" ++ c.sha1 ++ "\"\n" ++
  base ++ "[\"url\"] = \"" ++ c.url ++ "\"\n" ++
  base ++ "] = \x7d\n"

/-- The lines emitted for one `ManifestPackage` (lines 429-470). -/
def packageLines (pn ver : String) (p : ManifestPackage) : String :=
  let base := "m.packages[\"" ++ pn ++ "\"][\"" ++ ver ++ "\"][\"" ++ p.path ++ "\"]"
  base ++ " = \x7b\n" ++
  base ++ "[\"commit\"] = \"" ++ p.commit ++ "\"\n" ++
  base ++ "[\"contents\"] = \x7b\n" ++
  String.join (p.contents.map (contentLines pn ver p.path)) ++
  base ++ "[\"contents\"]] = \x7d\n" ++
  base ++ "] = \x7d\n"

/-- The lines emitted for one version key (lines 423-427 plus inner loop). -/
def versionLines (pn : String) (pair : String × List ManifestPackage) : String :=
  "m.packages[\"" ++ pn ++ "\"][\"" ++ pair.1 ++ "\"] = \x7b\n" ++
  String.join (pair.2.map (packageLines pn pair.1))

/-- The lines emitted for one package-name key (lines 420-421 plus inner loop). -/
def pkgNameLines (pair : String × VerMap) : String :=
  "m.packages[\"" ++ pair.1 ++ "\"] = \x7b\n" ++
  String.join (pair.2.map (versionLines pair.1))

/-- `impl Display for Manifest` / `manifest.to_string()`: header, root
fields (`last_update` is quoted like the strings), then the packages in
map iteration order. -/
def Manifest.render (m : Manifest) : String :=
  "-- This file is automatically generated by krait --\n" ++
  "-- Do not edit this file manually --\n" ++
  "\n" ++
  "local m = krait.manifest\n" ++
  "m.repo = \"" ++ m.repo ++ "\"\n" ++
  "m.latest_commit = \"" ++ m.latest_commit ++ "\"\n" ++
  "m.last_update = \"" ++ ToString.toString m.last_update ++ "\"\n" ++
  "\n" ++
  String.join (m.packages.map pkgNameLines)

/- ## Merge engine (manifest.rs lines 352-379, inline in the package loop
of gen_manifest) -/

/-- The merge of one scanned `(package_name, version, entry)` into the
packages map: `contains_key`/`contains_key`/`push` on both-present,
`insert` of `vec![entry]` on a fresh version, `insert` of a fresh
one-version map on a fresh name. -/
def Manifest.mergePackage (packages : PkgMap) (name ver : String)
    (pkg : ManifestPackage) : PkgMap :=
  match mapGet name packages with
  | some verMap =>
      match mapGet ver verMap with
      | some lst => mapInsert name (mapInsert ver (lst ++ [pkg]) verMap) packages
      | none => mapInsert name (mapInsert ver [pkg] verMap) packages
  | none => mapInsert name [(ver, [pkg])] packages

/- ## Lua value model and deserialization (Manifest::parse, lines 37-82)

`Manifest::parse` builds a fresh Lua interpreter, installs an empty
`krait.manifest` table, runs the input script, and coerces the populated
table with mlua's `from_value_with` (serde-derived `Deserialize`,
`deny_unsupported_types(false)`, `deny_recursive_tables(false)`).

A Lua table is modelled by its string-keyed associative part (which drives
struct and `HashMap` targets; keys unique, and a key set to `nil` is
absent, so `nil` is never a stored value) and its sequence part `t[1..n]`
(which drives `Vec` targets). Serde coercions under mlua: a `String` field
accepts exactly a Lua string, an `i64` field exactly a Lua integer (a
float is visited as `f64`, which the `i64` visitor rejects, as do strings
such as the quoted numbers the serializer emits), a `Vec` and a `HashMap`
exactly a table. Unknown fields are ignored; no field of `Manifest` has a
serde default, so a missing field is an error. Values of unsupported kinds
(functions, userdata) are skipped under `deny_unsupported_types(false)`,
i.e. their keys are simply absent here. -/

inductive LuaVal where
  | boolean (b : Bool)
  | int (n : Int)
  /-- A non-integral float: rejected by every field type of the schema, so
  its payload is irrelevant to the decoder and is not carried. -/
  | num
  | str (s : String)
  | table (assoc : List (String × LuaVal)) (seq : List LuaVal)

/-- Look up a required struct field. -/
def reqField (assoc : List (String × LuaVal)) (fname : String) : Except String LuaVal :=
  match mapGet fname assoc with
  | some v => .ok v
  | none => .error ("missing field " ++ fname)

/-- Deserialize a `String` field. -/
def decodeStr : LuaVal → Except String String
  | .str s => .ok s
  | _ => .error "invalid type: expected string"

/-- Deserialize an `i64` field. -/
def decodeInt : LuaVal → Except String Int
  | .int n => .ok n
  | _ => .error "invalid type: expected integer"

/-- Deserialize each element of a `Vec` target from the sequence part. -/
def decodeList {α : Type} (dec : LuaVal → Except String α) :
    List LuaVal → Except String (List α)
  | [] => .ok []
  | v :: rest => do
      let a ← dec v
      let tl ← decodeList dec rest
      .ok (a :: tl)

/-- Deserialize each value of a `HashMap<String, _>` target from the
associative part. -/
def decodeAssocMap {α : Type} (dec : LuaVal → Except String α) :
    List (String × LuaVal) → Except String (List (String × α))
  | [] => .ok []
  | (k, v) :: rest => do
      let a ← dec v
      let tl ← decodeAssocMap dec rest
      .ok ((k, a) :: tl)

/-- Deserialize a `ManifestPackageContent` (fields `name`, `path`, `sha1`,
`url`, all strings). -/
def decodeContent : LuaVal → Except String ManifestPackageContent
  | .table assoc _ => do
      let n ← reqField assoc "name" >>= decodeStr
      let p ← reqField assoc "path" >>= decodeStr
      let s ← reqField assoc "sha1" >>= decodeStr
      let u ← reqField assoc "url" >>= decodeStr
      .ok ⟨n, p, s, u⟩
  | _ => .error "invalid type: expected table"

/-- Deserialize a `ManifestPackage` (`commit`, `path`, `contents : Vec<_>`). -/
def decodePackage : LuaVal → Except String ManifestPackage
  | .table assoc _ => do
      let c ← reqField assoc "commit" >>= decodeStr
      let p ← reqField assoc "path" >>= decodeStr
      let contents ← match mapGet "contents" assoc with
        | some (.table _ cseq) => decodeList decodeContent cseq
        | some _ => .error "invalid type: expected table"
        | none => .error "missing field contents"
      .ok ⟨c, p, contents⟩
  | _ => .error "invalid type: expected table"

/-- Deserialize the `packages` field
(`HashMap<String, HashMap<String, Vec<ManifestPackage>>>`). -/
def decodePackages : LuaVal → Except String PkgMap
  | .table assoc _ =>
      decodeAssocMap (fun v => match v with
        | .table a2 _ => decodeAssocMap (fun v2 => match v2 with
            | .table _ s2 => decodeList decodePackage s2
            | _ => .error "invalid type: expected table") a2
        | _ => .error "invalid type: expected table") assoc
  | _ => .error "invalid type: expected table"

/-- `lua.from_value_with::<Manifest>` on the populated `krait.manifest`
value: all four fields are required, none has a serde default. -/
def Manifest.fromLua : LuaVal → Except String Manifest
  | .table assoc _ =>
      match reqField assoc "repo" >>= decodeStr with
      | .error e => .error e
      | .ok repo =>
      match reqField assoc "latest_commit" >>= decodeStr with
      | .error e => .error e
      | .ok lc =>
      match reqField assoc "last_update" >>= decodeInt with
      | .error e => .error e
      | .ok lu =>
      match reqField assoc "packages" >>= decodePackages with
      | .error e => .error e
      | .ok pk => .ok ⟨repo, lc, lu, pk⟩
  | _ => .error "invalid type: expected table"

/-- Outcome of running library code that may hit the process-exit macro. -/
inductive ProcResult (α : Type) where
  | exited (code : Nat)
  | returned (a : α)

/-- Modelled from the spec: the body of the `krait::exit!` macro is not
under `src/`; spec §9 ("the source repeatedly terminates the process deep
inside library logic on any failure") pins it as termination of the host
process with the given code. -/
def kraitExit {α : Type} (code : Nat) : ProcResult α := .exited code

/-- `Manifest::parse` (lines 37-82). Running the script in the fresh,
sandboxed interpreter is external, so its outcome is the oracle `exec`:
`.error e` when `lua.load(&s).exec()` fails, otherwise `.ok v` with the
final value of the `krait.manifest` global. Both failure arms print to
stderr and then invoke `krait::exit!(1)`. -/
def Manifest.parseRun (exec : Except String LuaVal) : ProcResult Manifest :=
  match exec with
  | .error _ => kraitExit 1
  | .ok v =>
      match Manifest.fromLua v with
      | .error _ => kraitExit 1
      | .ok m => .returned m

/- ## Generation: Manifest::gen_manifest (manifest.rs lines 84-393)

The function runs against the current directory; all its external reads
(git2 queries, directory listings, file bytes) are oracle inputs collected
in `GenEnv`, in the order the code consults them. Its observable effects
are the returned/updated manifest, the filesystem writes to
`manifest.lua`, and the `krait::exit!(1)` calls; every exit site is
labelled with a `GenErr` constructor carrying the spec §7 error kind it
realises. `File::create` and `fs::write` themselves succeeding is assumed
(their own error arms exit too and touch nothing else). -/

/-- One entry of a package directory listing (entries whose `read_dir`
item errored are skipped by the `if let Ok` and are not modelled). -/
inductive DirEntry where
  | dir (name : String)
  | file (name : String) (bytes : List Nat)

/-- One subdirectory of `packages/`, with everything the loop body reads.
The `version` field is modelled from the spec: `krait::pkg::PkgInfo` is
not under `src/`; spec §4.4 step 4 and §6 pin the descriptor to a file
`manifest.lua` in the package directory declaring a `version` string.
`version = none` means that file is absent (the line 227 existence check
fails). `commit = none` means `revparse_single`/`peel_to_commit` for
`HEAD:packages/<name>` failed (lines 246-267). -/
structure PackageDir where
  name : String
  version : Option String
  commit : Option String
  contents : List DirEntry

/-- The head metadata read from git2: `shorthand()` of `repo.head()`, and
id and seconds of `head().peel_to_commit()` (lines 124-161). -/
structure GitHead where
  branch : String
  commitId : String
  timeSeconds : Int

/-- Oracle inputs of one `gen_manifest` run, in consultation order. -/
structure GenEnv where
  /-- `git2::Repository::discover(&cd)` succeeded (line 96). -/
  isGitRepo : Bool
  /-- `<cwd>/manifest.lua`: `none` = unreadable/absent (the code then
  creates an empty file, line 112); `some exec` = read, with `exec` the
  script-execution oracle handed to `Manifest::parse` (line 109). -/
  manifestFile : Option (Except String LuaVal)
  /-- `none` = `head()`, `shorthand()` or `peel_to_commit()` failed. -/
  head : Option GitHead
  /-- `repo.remotes()` (line 165): remote names, `none` for non-UTF-8 ones. -/
  remotes : List (Option String)
  /-- Subdirectories of `<cwd>/packages` (lines 193-215); `none` = the
  directory does not exist. -/
  packagesDir : Option (List PackageDir)

/-- Labels for the `krait::exit!(1)` sites of `gen_manifest`, named by the
spec §7 error kind each one realises. -/
inductive GenErr where
  | notARepository
  | manifestParseExit
  | headError
  | noValidRemote
  | noPackagesDirectory
  | missingPackageDescriptor (pkg : String)
  | packageCommitError (pkg : String)
  | unsupportedNestedContent (pkg : String)
deriving DecidableEq

/-- The writes `gen_manifest` can issue to `<cwd>/manifest.lua`. -/
inductive FsWrite where
  | createEmptyManifest
  | writeManifest (text : String)
deriving DecidableEq

/-- Lines 164-190: keep a non-empty `manifest.repo`; otherwise scan the
remotes, remembering the last one whose name contains `"github"`, and
exit with no-valid-remote if none does. -/
def resolveRepo (repo : String) (remotes : List (Option String)) : Except GenErr String :=
  if repo = "" then
    let url := remotes.foldl (fun acc r =>
      match r with
      | some s => if strContains s "github" then some s else acc
      | none => acc) none
    match url with
    | some u => .ok u
    | none => .error .noValidRemote
  else .ok repo

/-- Lines 285-341: walk the package directory entries in order; a nested
directory exits at once; a file is hashed and becomes a
`ManifestPackageContent` with the raw.githubusercontent.com URL. -/
def processContents (repoUrl branch pkgName : String) :
    List DirEntry → Except GenErr (List ManifestPackageContent)
  | [] => .ok []
  | .dir _ :: _ => .error (.unsupportedNestedContent pkgName)
  | .file fname bytes :: rest => do
      let cpath := "packages/" ++ pkgName ++ "/" ++ fname
      let tl ← processContents repoUrl branch pkgName rest
      .ok (⟨fname, cpath, sha1Hex bytes,
            "https://raw.githubusercontent.com/" ++ repoUrl ++ "/" ++ branch ++ "/" ++ cpath⟩ :: tl)

/-- Lines 217-380, one iteration of the package loop: descriptor check,
package commit, contents scan, then the merge into `manifest.packages`. -/
def processPackage (repoUrl branch : String) (m : Manifest) (p : PackageDir) :
    Except GenErr Manifest :=
  match p.version with
  | none => .error (.missingPackageDescriptor p.name)
  | some ver =>
      match p.commit with
      | none => .error (.packageCommitError p.name)
      | some commit => do
          let contents ← processContents repoUrl branch p.name p.contents
          let pkg : ManifestPackage := ⟨commit, "packages/" ++ p.name, contents⟩
          .ok { m with packages := Manifest.mergePackage m.packages p.name ver pkg }

/-- The package loop, in directory-listing order. -/
def processPackages (repoUrl branch : String) :
    Manifest → List PackageDir → Except GenErr Manifest
  | m, [] => .ok m
  | m, p :: rest => do
      let m' ← processPackage repoUrl branch m p
      processPackages repoUrl branch m' rest

/-- Lines 124-380, the phase after the manifest is in hand: head commit
and timestamp into `latest_commit`/`last_update`; repository URL (note
`resolveRepo` reads the repo field before the head fields were the only
ones updated, so it sees `m0.repo` unchanged); `packages` directory
check; then the package loop over the updated manifest. -/
def genAfterParse (env : GenEnv) (m0 : Manifest) : Except GenErr Manifest :=
  match env.head with
  | none => .error .headError
  | some h =>
      match resolveRepo m0.repo env.remotes with
      | .error e => .error e
      | .ok url =>
          match env.packagesDir with
          | none => .error .noPackagesDirectory
          | some pkgs =>
              processPackages url h.branch
                { m0 with latest_commit := h.commitId, last_update := h.timeSeconds,
                          repo := url } pkgs

/-- `Manifest::gen_manifest`, as the pair (writes issued in order, final
outcome). Control flow in source order: git discover; read-or-create
`manifest.lua` (parsing an existing one through `Manifest::parse`, which
itself may exit); then the `genAfterParse` phase; on success the
serialized manifest is written back to `manifest.lua`. -/
def Manifest.genManifest (env : GenEnv) : List FsWrite × Except GenErr Manifest :=
  if env.isGitRepo then
    match env.manifestFile with
    | some exec =>
        match Manifest.parseRun exec with
        | .exited _ => ([], .error .manifestParseExit)
        | .returned m0 =>
            match genAfterParse env m0 with
            | .error e => ([], .error e)
            | .ok mF => ([.writeManifest mF.render], .ok mF)
    | none =>
        match genAfterParse env Manifest.defaultValue with
        | .error e => ([.createEmptyManifest], .error e)
        | .ok mF => ([.createEmptyManifest, .writeManifest mF.render], .ok mF)
  else ([], .error .notARepository)

/- ## Map lemmas -/

/-- Lookup of the inserted key. -/
theorem mapGet_mapInsert_self {β : Type} (k : String) (v : β) (l : List (String × β)) :
    mapGet k (mapInsert k v l) = some v := by
  induction l with
  | nil => simp [mapInsert, mapGet]
  | cons hd tl ih =>
      obtain ⟨k', v'⟩ := hd
      by_cases h : k' = k
      · simp [mapInsert, h, mapGet]
      · simp [mapInsert, h, mapGet, ih]

/-- Lookup of any other key is untouched by an insert. -/
theorem mapGet_mapInsert_ne {β : Type} {k q : String} (v : β) (l : List (String × β))
    (h : q ≠ k) : mapGet q (mapInsert k v l) = mapGet q l := by
  induction l with
  | nil => simp [mapInsert, mapGet, Ne.symm h]
  | cons hd tl ih =>
      obtain ⟨k', v'⟩ := hd
      by_cases hk : k' = k
      · subst hk
        simp [mapInsert, mapGet, Ne.symm h]
      · simp [mapInsert, hk, mapGet, ih]

/-- The `packages[name][version]` view used by the spec's merge clauses. -/
def mapGet2 (name ver : String) (packages : PkgMap) : Option (List ManifestPackage) :=
  match mapGet name packages with
  | some vm => mapGet ver vm
  | none => none

/-- After a merge, the merged slot holds the old list (empty if absent)
with the entry appended. -/
theorem mergePackage_get2 (packages : PkgMap) (name ver : String) (pkg : ManifestPackage) :
    mapGet2 name ver (Manifest.mergePackage packages name ver pkg) =
      some ((mapGet2 name ver packages).getD [] ++ [pkg]) := by
  unfold Manifest.mergePackage mapGet2
  cases hn : mapGet name packages with
  | none =>
      simp [mapGet_mapInsert_self, mapGet]
  | some vm =>
      cases hv : mapGet ver vm with
      | none => simp [mapGet_mapInsert_self, hv]
      | some lst => simp [mapGet_mapInsert_self, hv]

/- ## Claims C2 and C3: merge semantics and frame -/

/-- Sample package entries for concrete instantiations. -/
def pkgA : ManifestPackage := ⟨"c0", "packages/foo", []⟩

def pkgB : ManifestPackage := ⟨"c1", "packages/bar", []⟩

def pmSample : PkgMap := [("foo", [("2.0.0", [pkgA])]), ("bar", [("1.0.0", [pkgB])])]

/-- C2: merging inserts a fresh name mapped to a single version holding
`[entry]` when the name is absent; makes `packages[name][version] = [entry]`
when the name is present but the version absent; appends to the existing
list (never replacing or deduplicating) when both are present; and merging
the same `(name, version, entry)` twice into an absent slot yields the
two-element list `[entry, entry]`. -/
theorem merge_insert_append_semantics (packages : PkgMap) (name ver : String)
    (pkg : ManifestPackage) :
    (mapGet name packages = none →
      mapGet name (Manifest.mergePackage packages name ver pkg) = some [(ver, [pkg])]) ∧
    (∀ vm, mapGet name packages = some vm → mapGet ver vm = none →
      mapGet2 name ver (Manifest.mergePackage packages name ver pkg) = some [pkg]) ∧
    (∀ vm lst, mapGet name packages = some vm → mapGet ver vm = some lst →
      mapGet2 name ver (Manifest.mergePackage packages name ver pkg) = some (lst ++ [pkg])) ∧
    (mapGet2 name ver packages = none →
      mapGet2 name ver (Manifest.mergePackage
        (Manifest.mergePackage packages name ver pkg) name ver pkg) = some [pkg, pkg]) := by
  refine ⟨?_, ?_, ?_, ?_⟩
  · intro hn
    unfold Manifest.mergePackage
    rw [hn]
    exact mapGet_mapInsert_self ..
  · intro vm hn hv
    rw [mergePackage_get2]
    simp [mapGet2, hn, hv]
  · intro vm lst hn hv
    rw [mergePackage_get2]
    simp [mapGet2, hn, hv]
  · intro h0
    rw [mergePackage_get2, mergePackage_get2, h0]
    simp

/-- Concrete instantiation of `merge_insert_append_semantics`. -/
theorem merge_insert_append_semantics_witness :
    mapGet "foo" (Manifest.mergePackage ([] : PkgMap) "foo" "1.0.0" pkgA) =
      some [("1.0.0", [pkgA])] ∧
    mapGet2 "foo" "1.0.0" (Manifest.mergePackage
      (Manifest.mergePackage [] "foo" "1.0.0" pkgA) "foo" "1.0.0" pkgA) =
      some [pkgA, pkgA] :=
  ⟨(merge_insert_append_semantics [] "foo" "1.0.0" pkgA).1 rfl,
   (merge_insert_append_semantics [] "foo" "1.0.0" pkgA).2.2.2 rfl⟩

/-- C3: merging an entry under package `name` leaves every other package
key, and every version key of `name` other than the merged one, mapped to
a value structurally equal to its value before the merge. -/
theorem merge_frame (packages : PkgMap) (name ver : String) (pkg : ManifestPackage) :
    (∀ k, k ≠ name →
      mapGet k (Manifest.mergePackage packages name ver pkg) = mapGet k packages) ∧
    (∀ v, v ≠ ver →
      mapGet2 name v (Manifest.mergePackage packages name ver pkg) =
        mapGet2 name v packages) := by
  constructor
  · intro k hk
    unfold Manifest.mergePackage
    cases hn : mapGet name packages with
    | none =>
        simp only [hn]
        exact mapGet_mapInsert_ne _ _ hk
    | some vm =>
        cases hv : mapGet ver vm with
        | none =>
            simp only [hn, hv]
            exact mapGet_mapInsert_ne _ _ hk
        | some lst =>
            simp only [hn, hv]
            exact mapGet_mapInsert_ne _ _ hk
  · intro v hvne
    cases hn : mapGet name packages with
    | none =>
        unfold Manifest.mergePackage
        rw [hn]
        simp [mapGet2, mapGet_mapInsert_self, hn, mapGet, Ne.symm hvne]
    | some vm =>
        unfold Manifest.mergePackage
        rw [hn]
        cases hv : mapGet ver vm with
        | none =>
            simp only [hv]
            simp [mapGet2, mapGet_mapInsert_self, hn, mapGet_mapInsert_ne _ _ hvne]
        | some lst =>
            simp only [hv]
            simp [mapGet2, mapGet_mapInsert_self, hn, mapGet_mapInsert_ne _ _ hvne]

/-- Concrete instantiation of `merge_frame`: merging into `"foo"` leaves
`"bar"` and `"foo"`'s other version untouched. -/
theorem merge_frame_witness :
    mapGet "bar" (Manifest.mergePackage pmSample "foo" "1.0.0" pkgA) =
      mapGet "bar" pmSample ∧
    mapGet2 "foo" "2.0.0" (Manifest.mergePackage pmSample "foo" "1.0.0" pkgA) =
      mapGet2 "foo" "2.0.0" pmSample :=
  ⟨(merge_frame pmSample "foo" "1.0.0" pkgA).1 "bar" (by decide),
   (merge_frame pmSample "foo" "1.0.0" pkgA).2 "2.0.0" (by decide)⟩

/- ## Claim C7: serializer byte-determinism -/

def verMapA : VerMap := [("1.0.0", [pkgA])]

def verMapB : VerMap := [("1.0.0", [pkgB])]

/-- The same two-package map in its two possible iteration orders. -/
def mAB : Manifest := ⟨"r", "l", 0, [("foo", verMapA), ("bar", verMapB)]⟩

def mBA : Manifest := ⟨"r", "l", 0, [("bar", verMapB), ("foo", verMapA)]⟩

set_option maxRecDepth 20000 in
/-- C7 counterexample: two representations of one and the same packages
map (a permutation, hence equal as a `HashMap` value) serialize to
different bytes — the `Display` impl follows map iteration order and sorts
nothing, so byte output is not reproducible across runs. -/
theorem render_not_order_independent :
    mAB.packages.Perm mBA.packages ∧ mAB.render ≠ mBA.render := by
  constructor
  · exact List.Perm.swap _ _ _
  · decide

/-- Folding string concatenation from any accumulator splits off the
accumulator. -/
theorem strFoldl_append_acc (l : List String) :
    ∀ s : String, l.foldl (· ++ ·) s = s ++ l.foldl (· ++ ·) "" := by
  induction l with
  | nil => intro s; simp [List.foldl_nil, String.append_empty]
  | cons x tl ih =>
      intro s
      rw [List.foldl_cons, List.foldl_cons, ih (s ++ x), ih ("" ++ x),
        String.empty_append, String.append_assoc]

/-- `String.join` is an append homomorphism. -/
theorem strJoin_append (l1 l2 : List String) :
    String.join (l1 ++ l2) = String.join l1 ++ String.join l2 := by
  have hj : ∀ l : List String, String.join l = l.foldl (· ++ ·) "" := fun _ => rfl
  rw [hj, hj, hj, List.foldl_append, strFoldl_append_acc]

/-- The same version map of one package in its two iteration orders. -/
def vm12 : VerMap := [("1.0.0", [pkgA]), ("2.0.0", [pkgA])]

def vm21 : VerMap := [("2.0.0", [pkgA]), ("1.0.0", [pkgA])]

def mV12 : Manifest := ⟨"r", "l", 0, [("foo", vm12)]⟩

def mV21 : Manifest := ⟨"r", "l", 0, [("foo", vm21)]⟩

set_option maxRecDepth 20000 in
/-- C7 amended: the serializer emits package blocks in map iteration
order — the output for packages `xs ++ ys` is the output of the manifest
truncated to `xs`, followed by the blocks of `ys` — and it sorts nothing,
so representations of the same maps in different iteration orders produce
different bytes at the version level just as at the package level: the
one-package manifests `mV12`/`mV21` (the same version map in its two
inner iteration orders) render differently. -/
theorem render_emits_in_iteration_order :
    (∀ (m : Manifest) (xs ys : PkgMap), m.packages = xs ++ ys →
      m.render = (Manifest.mk m.repo m.latest_commit m.last_update xs).render ++
        String.join (ys.map pkgNameLines)) ∧
    (vm12.Perm vm21 ∧ mV12.render ≠ mV21.render) := by
  constructor
  · intro m xs ys hm
    unfold Manifest.render
    rw [hm]
    simp only [List.map_append, strJoin_append, String.append_assoc]
  · exact ⟨List.Perm.swap _ _ _, by decide⟩

set_option maxRecDepth 20000 in
/-- Concrete instantiation of `render_emits_in_iteration_order`: the
two-package manifest `mAB` renders as its `"foo"`-only truncation
followed by the `"bar"` block. -/
theorem render_emits_in_iteration_order_witness :
    mAB.render = (Manifest.mk "r" "l" 0 [("foo", verMapA)]).render ++
      String.join ([("bar", verMapB)].map pkgNameLines) :=
  render_emits_in_iteration_order.1 mAB [("foo", verMapA)] [("bar", verMapB)] rfl

/- ## Claim C1: the round-trip law -/

/-- A one-package repository state: `packages/foo` with descriptor version
`1.0.0`, last-touching commit `cafe`, and one file `a.txt` holding the
bytes `"hi"`; no pre-existing `manifest.lua`; one remote named `github`. -/
def envC1 : GenEnv :=
  { isGitRepo := true
    manifestFile := none
    head := some ⟨"main", "deadbeef", 5⟩
    remotes := [some "github"]
    packagesDir := some [⟨"foo", some "1.0.0", some "cafe", [.file "a.txt" [104, 105]]⟩] }

/-- The manifest generation produces over `envC1`. -/
def mC1 : Manifest :=
  ⟨"github", "deadbeef", 5,
   [("foo", [("1.0.0", [⟨"cafe", "packages/foo",
      [⟨"a.txt", "packages/foo/a.txt", "c22b5f9178342609428d6f51b2c5af4c0bde6a42",
        "https://raw.githubusercontent.com/github/main/packages/foo/a.txt"⟩]⟩])])]⟩

set_option maxRecDepth 100000 in
/-- C1, evaluating the code at the failing input: `mC1` is producible by
generation, its serialization contains the malformed fragment `"]] = ⵓ`
(a stray double bracket assigned the lone closing brace — not Lua), and
already the default manifest's serialization assigns the quoted string
`"0"` to the integer field `last_update`; `Manifest::parse` of this text
cannot return the original value, so `parse(serialize(m))` never
round-trips. -/
theorem roundtrip_failing_eval :
    (Manifest.genManifest envC1).2 = .ok mC1 ∧
    strContains mC1.render "\"]] = \x7d" = true ∧
    Manifest.defaultValue.render =
      "-- This file is automatically generated by krait --\n-- Do not edit this file manually --\n\nlocal m = krait.manifest\nm.repo = \"\"\nm.latest_commit = \"\"\nm.last_update = \"0\"\n\n" := by
  refine ⟨rfl, by decide, by decide⟩

/- ## Claim C4: parse failure behaviour -/

/-- C4, evaluating the code at the failing inputs: when the script fails
to execute (any syntactically invalid text, e.g. `"("`), and when the
populated table cannot be coerced into the schema (e.g. a script that sets
nothing, leaving `krait.manifest` empty), `Manifest::parse` terminates the
host process via `krait::exit!(1)` instead of returning a structured
`ManifestParseError` to its caller. -/
theorem parse_exits_on_failure :
    Manifest.parseRun (.error "syntax error near eof") = ProcResult.exited 1 ∧
    Manifest.parseRun (.ok (.table [] [])) = ProcResult.exited 1 :=
  ⟨rfl, rfl⟩

/- ## Claim C10: no defaults in deserialization -/

/-- `decodeStr` succeeds only on a Lua string equal to its output. -/
theorem decodeStr_ok_inv (v : LuaVal) (s : String) (h : decodeStr v = .ok s) :
    v = .str s := by
  cases v <;> simp [decodeStr] at h
  simp [h]

/-- `decodeInt` succeeds only on a Lua integer equal to its output. -/
theorem decodeInt_ok_inv (v : LuaVal) (n : Int) (h : decodeInt v = .ok n) :
    v = .int n := by
  cases v <;> simp [decodeInt] at h
  simp [h]

/-- `decodePackages` succeeds only on a Lua table. -/
theorem decodePackages_ok_inv (v : LuaVal) (p : PkgMap) (h : decodePackages v = .ok p) :
    ∃ a s, v = .table a s := by
  cases v <;> simp [decodePackages] at h
  exact ⟨_, _, rfl⟩

/-- A required field that decoded successfully was present and decodable. -/
theorem reqField_bind_ok {α : Type} (assoc : List (String × LuaVal)) (fname : String)
    (dec : LuaVal → Except String α) (a : α)
    (h : reqField assoc fname >>= dec = .ok a) :
    ∃ v, mapGet fname assoc = some v ∧ dec v = .ok a := by
  cases hm : mapGet fname assoc with
  | none => simp [reqField, hm, Bind.bind, Except.bind] at h
  | some v =>
      simp [reqField, hm, Bind.bind, Except.bind] at h
      exact ⟨v, rfl, h⟩

/-- Inversion of a successful `Manifest.fromLua`: all four fields were
present with coercible values. -/
theorem fromLua_ok_inv (assoc : List (String × LuaVal)) (seq : List LuaVal)
    (m : Manifest) (h : Manifest.fromLua (.table assoc seq) = .ok m) :
    (∃ s, mapGet "repo" assoc = some (.str s)) ∧
    (∃ s, mapGet "latest_commit" assoc = some (.str s)) ∧
    (∃ n, mapGet "last_update" assoc = some (.int n)) ∧
    (∃ a2 s2, mapGet "packages" assoc = some (.table a2 s2)) := by
  unfold Manifest.fromLua at h
  cases h1 : reqField assoc "repo" >>= decodeStr with
  | error e =>
      simp only [h1] at h
      exact absurd h (by simp)
  | ok repo =>
  simp only [h1] at h
  cases h2 : reqField assoc "latest_commit" >>= decodeStr with
  | error e =>
      simp only [h2] at h
      exact absurd h (by simp)
  | ok lc =>
  simp only [h2] at h
  cases h3 : reqField assoc "last_update" >>= decodeInt with
  | error e =>
      simp only [h3] at h
      exact absurd h (by simp)
  | ok lu =>
  simp only [h3] at h
  cases h4 : reqField assoc "packages" >>= decodePackages with
  | error e =>
      simp only [h4] at h
      exact absurd h (by simp)
  | ok pk =>
  obtain ⟨v1, hm1, hd1⟩ := reqField_bind_ok _ _ _ _ h1
  obtain ⟨v2, hm2, hd2⟩ := reqField_bind_ok _ _ _ _ h2
  obtain ⟨v3, hm3, hd3⟩ := reqField_bind_ok _ _ _ _ h3
  obtain ⟨v4, hm4, hd4⟩ := reqField_bind_ok _ _ _ _ h4
  obtain ⟨a2, s2, hv4⟩ := decodePackages_ok_inv _ _ hd4
  refine ⟨⟨repo, ?_⟩, ⟨lc, ?_⟩, ⟨lu, ?_⟩, ⟨a2, s2, ?_⟩⟩
  · rw [← decodeStr_ok_inv _ _ hd1]; exact hm1
  · rw [← decodeStr_ok_inv _ _ hd2]; exact hm2
  · rw [← decodeInt_ok_inv _ _ hd3]; exact hm3
  · rw [← hv4]; exact hm4

/-- C10: a populated manifest table that omits any of the four fields
`repo`, `latest_commit`, `last_update`, `packages`, or holds a
non-coercible value in one of them (e.g. a string where the `i64`
`last_update` belongs, or an integer where the string `repo` belongs),
fails to deserialize into `Manifest`; no absent field is defaulted. -/
theorem fromLua_requires_all_fields (assoc : List (String × LuaVal)) (seq : List LuaVal) :
    (mapGet "repo" assoc = none → ∀ m, Manifest.fromLua (.table assoc seq) ≠ .ok m) ∧
    (mapGet "latest_commit" assoc = none → ∀ m, Manifest.fromLua (.table assoc seq) ≠ .ok m) ∧
    (mapGet "last_update" assoc = none → ∀ m, Manifest.fromLua (.table assoc seq) ≠ .ok m) ∧
    (mapGet "packages" assoc = none → ∀ m, Manifest.fromLua (.table assoc seq) ≠ .ok m) ∧
    (∀ s, mapGet "last_update" assoc = some (.str s) →
      ∀ m, Manifest.fromLua (.table assoc seq) ≠ .ok m) ∧
    (∀ n, mapGet "repo" assoc = some (.int n) →
      ∀ m, Manifest.fromLua (.table assoc seq) ≠ .ok m) := by
  refine ⟨?_, ?_, ?_, ?_, ?_, ?_⟩
  · intro h0 m hok
    obtain ⟨⟨s, hs⟩, -, -, -⟩ := fromLua_ok_inv assoc seq m hok
    rw [h0] at hs; cases hs
  · intro h0 m hok
    obtain ⟨-, ⟨s, hs⟩, -, -⟩ := fromLua_ok_inv assoc seq m hok
    rw [h0] at hs; cases hs
  · intro h0 m hok
    obtain ⟨-, -, ⟨n, hn⟩, -⟩ := fromLua_ok_inv assoc seq m hok
    rw [h0] at hn; cases hn
  · intro h0 m hok
    obtain ⟨-, -, -, ⟨a2, s2, hp⟩⟩ := fromLua_ok_inv assoc seq m hok
    rw [h0] at hp; cases hp
  · intro s h0 m hok
    obtain ⟨-, -, ⟨n, hn⟩, -⟩ := fromLua_ok_inv assoc seq m hok
    rw [h0] at hn; simp at hn
  · intro n h0 m hok
    obtain ⟨⟨s, hs⟩, -, -, -⟩ := fromLua_ok_inv assoc seq m hok
    rw [h0] at hs; simp at hs

/-- The table the serialized default manifest would populate: all root
fields set, but `last_update` as the quoted string the serializer emits. -/
def assocStrUpdate : List (String × LuaVal) :=
  [("repo", .str ""), ("latest_commit", .str ""), ("last_update", .str "0"),
   ("packages", .table [] [])]

/-- Concrete instantiation of `fromLua_requires_all_fields`: the empty
table (missing all fields) and a table with a string `last_update` both
fail to coerce. -/
theorem fromLua_requires_all_fields_witness :
    Manifest.fromLua (.table [] []) ≠ .ok Manifest.defaultValue ∧
    Manifest.fromLua (.table assocStrUpdate []) ≠ .ok Manifest.defaultValue :=
  ⟨(fromLua_requires_all_fields [] []).1 rfl Manifest.defaultValue,
   (fromLua_requires_all_fields assocStrUpdate []).2.2.2.2.1 "0" rfl Manifest.defaultValue⟩

/- ## Generation lemmas shared by claims C5, C6 and C8 -/

/-- The package loop touches only the `packages` field. -/
theorem processPackage_preserves (u b : String) (m : Manifest) (p : PackageDir)
    (m' : Manifest) (h : processPackage u b m p = .ok m') :
    m'.repo = m.repo ∧ m'.latest_commit = m.latest_commit ∧
    m'.last_update = m.last_update := by
  unfold processPackage at h
  cases hv : p.version with
  | none => simp [hv] at h
  | some ver =>
      simp only [hv] at h
      cases hc : p.commit with
      | none => simp [hc] at h
      | some c =>
          simp only [hc] at h
          cases hx : processContents u b p.name p.contents with
          | error e => simp [hx, Bind.bind, Except.bind] at h
          | ok cs =>
              simp only [hx, Bind.bind, Except.bind] at h
              cases h
              exact ⟨rfl, rfl, rfl⟩

/-- Iterated version of `processPackage_preserves`. -/
theorem processPackages_preserves (u b : String) :
    ∀ (l : List PackageDir) (m m' : Manifest),
      processPackages u b m l = .ok m' →
      m'.repo = m.repo ∧ m'.latest_commit = m.latest_commit ∧
      m'.last_update = m.last_update := by
  intro l
  induction l with
  | nil =>
      intro m m' h
      simp only [processPackages] at h
      cases h
      exact ⟨rfl, rfl, rfl⟩
  | cons p tl ih =>
      intro m m' h
      unfold processPackages at h
      cases hp : processPackage u b m p with
      | error e => simp [hp, Bind.bind, Except.bind] at h
      | ok mm =>
          simp only [hp, Bind.bind, Except.bind] at h
          obtain ⟨h1, h2, h3⟩ := ih mm m' h
          obtain ⟨g1, g2, g3⟩ := processPackage_preserves u b m p mm hp
          exact ⟨h1.trans g1, h2.trans g2, h3.trans g3⟩

/-- `processContents` only ever fails with the nested-content error. -/
theorem processContents_error (u b pn : String) :
    ∀ (l : List DirEntry) (e : GenErr),
      processContents u b pn l = .error e → e = .unsupportedNestedContent pn := by
  intro l
  induction l with
  | nil => intro e h; simp [processContents] at h
  | cons hd tl ih =>
      intro e h
      cases hd with
      | dir d =>
          simp [processContents] at h
          exact h.symm
      | file fn bs =>
          cases ht : processContents u b pn tl with
          | error e2 =>
              simp [processContents, ht, Bind.bind, Except.bind] at h
              rw [← h]
              exact ih e2 ht
          | ok tlc =>
              simp [processContents, ht, Bind.bind, Except.bind] at h

/-- The per-package step only fails with one of the three package-scoped
errors. -/
theorem processPackage_error (u b : String) (m : Manifest) (p : PackageDir) (e : GenErr)
    (h : processPackage u b m p = .error e) :
    e = .missingPackageDescriptor p.name ∨ e = .packageCommitError p.name ∨
    e = .unsupportedNestedContent p.name := by
  unfold processPackage at h
  cases hv : p.version with
  | none =>
      simp [hv] at h
      exact .inl h.symm
  | some ver =>
      simp only [hv] at h
      cases hc : p.commit with
      | none =>
          simp [hc] at h
          exact .inr (.inl h.symm)
      | some c =>
          simp only [hc] at h
          cases hx : processContents u b p.name p.contents with
          | error e2 =>
              simp [hx, Bind.bind, Except.bind] at h
              exact .inr (.inr (h ▸ processContents_error u b p.name p.contents e2 hx))
          | ok cs => simp [hx, Bind.bind, Except.bind] at h

/-- The package loop never fails with the no-valid-remote error. -/
theorem processPackages_error_ne_remote (u b : String) :
    ∀ (l : List PackageDir) (m : Manifest) (e : GenErr),
      processPackages u b m l = .error e → e ≠ .noValidRemote := by
  intro l
  induction l with
  | nil => intro m e h; simp [processPackages] at h
  | cons p tl ih =>
      intro m e h
      unfold processPackages at h
      cases hp : processPackage u b m p with
      | error e2 =>
          simp [hp, Bind.bind, Except.bind] at h
          rcases processPackage_error u b m p e2 hp with h2 | h2 | h2 <;>
            (rw [← h, h2]; intro hcontra; cases hcontra)
      | ok mm =>
          simp only [hp, Bind.bind, Except.bind] at h
          exact ih mm e h

/-- A failed generation run never writes the serialized manifest. -/
theorem genManifest_error_no_write (env : GenEnv) (e : GenErr)
    (h : (Manifest.genManifest env).2 = .error e) :
    ∀ s, FsWrite.writeManifest s ∉ (Manifest.genManifest env).1 := by
  intro s
  unfold Manifest.genManifest at h ⊢
  by_cases hg : env.isGitRepo
  · simp only [hg, if_true] at h ⊢
    cases hf : env.manifestFile with
    | none =>
        simp only [hf] at h ⊢
        cases ha : genAfterParse env Manifest.defaultValue with
        | error e2 => simp [ha]
        | ok mF => simp [ha] at h
    | some exec =>
        simp only [hf] at h ⊢
        cases hp : Manifest.parseRun exec with
        | exited c => simp [hp]
        | returned m0 =>
            simp only [hp] at h ⊢
            cases ha : genAfterParse env m0 with
            | error e2 => simp [ha]
            | ok mF => simp [ha] at h
  · simp only [hg, if_false, Bool.false_eq_true] at h ⊢
    simp

/- ## Claim C8: repository URL preservation -/

/-- A non-empty repo field passes through `resolveRepo` untouched. -/
theorem resolveRepo_nonempty (repo : String) (remotes : List (Option String))
    (h : repo ≠ "") : resolveRepo repo remotes = .ok repo := by
  unfold resolveRepo
  simp [h]

/-- The post-parse phase keeps a non-empty repo field. -/
theorem genAfterParse_repo (env : GenEnv) (m0 : Manifest) (hne : m0.repo ≠ "") :
    (∀ m', genAfterParse env m0 = .ok m' → m'.repo = m0.repo) ∧
    genAfterParse env m0 ≠ .error .noValidRemote := by
  unfold genAfterParse
  cases hh : env.head with
  | none => exact ⟨(fun m' h => by simp at h), (by intro h; simp at h)⟩
  | some hd =>
      rw [resolveRepo_nonempty m0.repo env.remotes hne]
      cases hp : env.packagesDir with
      | none => exact ⟨(fun m' h => by simp at h), (by intro h; simp at h)⟩
      | some pkgs =>
          constructor
          · intro m' hok
            exact (processPackages_preserves _ _ pkgs _ m' hok).1
          · intro hcontra
            exact processPackages_error_ne_remote _ _ pkgs _ _ hcontra rfl

/-- With an empty repo field and no remote containing `"github"`, URL
resolution fails with the no-valid-remote error. -/
theorem resolveRepo_no_valid (remotes : List (Option String))
    (hr : (remotes.all fun r =>
        match r with | some u => !(strContains u "github") | none => true) = true) :
    resolveRepo "" remotes = .error .noValidRemote := by
  unfold resolveRepo
  have key : ∀ (l : List (Option String)),
      (l.all fun r =>
        match r with | some u => !(strContains u "github") | none => true) = true →
      (l.foldl (fun acc r =>
        match r with
        | some s => if strContains s "github" then some s else acc
        | none => acc) none) = none := by
    intro l
    induction l with
    | nil => intro _; rfl
    | cons r tl ih =>
        intro hall
        rw [List.all_cons, Bool.and_eq_true] at hall
        obtain ⟨h1, h2⟩ := hall
        cases r with
        | none => exact ih h2
        | some u =>
            simp only [Bool.not_eq_true'] at h1
            simp only [List.foldl_cons, h1, if_false, Bool.false_eq_true]
            exact ih h2
  simp [key remotes hr]

/-- With an empty repo and no github remote, the post-parse phase fails
with the no-valid-remote error. -/
theorem genAfterParse_no_valid (env : GenEnv) (m0 : Manifest) (hd : GitHead)
    (h0 : m0.repo = "") (hh : env.head = some hd)
    (hr : (env.remotes.all fun r =>
        match r with | some u => !(strContains u "github") | none => true) = true) :
    genAfterParse env m0 = .error .noValidRemote := by
  unfold genAfterParse
  simp only [hh, h0, resolveRepo_no_valid env.remotes hr]

/-- C8: with a pre-existing manifest whose repo field is non-empty,
generation preserves that field on every successful run and never fails
with the no-valid-remote error; with an empty repo field it resolves from
the remotes, failing with the no-valid-remote error when no remote name
contains `"github"`. -/
theorem gen_repo_resolution (env : GenEnv) (exec : Except String LuaVal) (pre : Manifest)
    (hgit : env.isGitRepo = true)
    (hfile : env.manifestFile = some exec)
    (hparse : Manifest.parseRun exec = .returned pre) :
    (pre.repo ≠ "" →
      (∀ m', (Manifest.genManifest env).2 = .ok m' → m'.repo = pre.repo) ∧
      (Manifest.genManifest env).2 ≠ .error .noValidRemote) ∧
    (pre.repo = "" → ∀ hd, env.head = some hd →
      (env.remotes.all fun r =>
        match r with | some u => !(strContains u "github") | none => true) = true →
      (Manifest.genManifest env).2 = .error .noValidRemote) := by
  have hgen : Manifest.genManifest env =
      (match genAfterParse env pre with
       | .error e => ([], .error e)
       | .ok mF => ([.writeManifest mF.render], .ok mF)) := by
    unfold Manifest.genManifest
    simp only [hgit, if_true, hfile, hparse]
  constructor
  · intro hne
    obtain ⟨hpres, hnv⟩ := genAfterParse_repo env pre hne
    constructor
    · intro m' hok
      rw [hgen] at hok
      cases ha : genAfterParse env pre with
      | error e => rw [ha] at hok; simp at hok
      | ok mF =>
          rw [ha] at hok
          simp only at hok
          obtain rfl : mF = m' := by
            simpa using hok
          exact hpres _ ha
    · intro hcontra
      rw [hgen] at hcontra
      cases ha : genAfterParse env pre with
      | error e =>
          rw [ha] at hcontra
          simp only at hcontra
          apply hnv
          rw [ha]
          simpa using hcontra
      | ok mF => rw [ha] at hcontra; simp at hcontra
  · intro h0 hd hh hr
    rw [hgen, genAfterParse_no_valid env pre hd h0 hh hr]

/-- Sample head metadata. -/
def hdW : GitHead := ⟨"main", "abc", 0⟩

/-- A parse oracle producing a manifest with a non-empty repo field. -/
def execPre : Except String LuaVal :=
  .ok (.table [("repo", .str "x"), ("latest_commit", .str "h"), ("last_update", .int 3),
               ("packages", .table [] [])] [])

def mPre : Manifest := ⟨"x", "h", 3, []⟩

def envPre : GenEnv :=
  { isGitRepo := true, manifestFile := some execPre, head := some hdW,
    remotes := [some "gitlab"], packagesDir := some [] }

/-- A parse oracle producing a manifest with an empty repo field. -/
def execEmptyRepo : Except String LuaVal :=
  .ok (.table [("repo", .str ""), ("latest_commit", .str "h"), ("last_update", .int 3),
               ("packages", .table [] [])] [])

def mEmptyRepo : Manifest := ⟨"", "h", 3, []⟩

def envEmptyRepo : GenEnv :=
  { isGitRepo := true, manifestFile := some execEmptyRepo, head := some hdW,
    remotes := [some "gitlab", none], packagesDir := some [] }

/-- Concrete instantiation of `gen_repo_resolution`: the non-empty repo
`"x"` survives a successful run even though no github remote exists, and
the same repository with an empty pre-existing repo field fails with the
no-valid-remote error. -/
theorem gen_repo_resolution_witness :
    (Manifest.mk "x" "abc" 0 []).repo = mPre.repo ∧
    (Manifest.genManifest envEmptyRepo).2 = .error .noValidRemote :=
  ⟨((gen_repo_resolution envPre execPre mPre rfl rfl rfl).1 (by decide)).1
      (Manifest.mk "x" "abc" 0 []) rfl,
   (gen_repo_resolution envEmptyRepo execEmptyRepo mEmptyRepo rfl rfl rfl).2
      rfl hdW rfl (by decide)⟩

/- ## Claims C5 and C6: failure runs and their filesystem writes -/

/-- Common shape of a generation run whose post-parse phase fails: the
error surfaces, the serialized manifest is never written, a pre-existing
manifest file means no write at all, and an absent one has already been
replaced by a fresh empty file before the failure. -/
theorem genManifest_of_afterParse_error (env : GenEnv) (pre : Manifest) (e : GenErr)
    (hgit : env.isGitRepo = true)
    (hfile : (env.manifestFile = none ∧ pre = Manifest.defaultValue) ∨
             (∃ exec, env.manifestFile = some exec ∧ Manifest.parseRun exec = .returned pre))
    (hafter : genAfterParse env pre = .error e) :
    (Manifest.genManifest env).2 = .error e ∧
    (∀ s, FsWrite.writeManifest s ∉ (Manifest.genManifest env).1) ∧
    (∀ exec, env.manifestFile = some exec → (Manifest.genManifest env).1 = []) ∧
    (env.manifestFile = none → (Manifest.genManifest env).1 = [.createEmptyManifest]) := by
  rcases hfile with ⟨hnone, hpre⟩ | ⟨exec, hsome, hparse⟩
  · subst hpre
    have hgen : Manifest.genManifest env = ([.createEmptyManifest], .error e) := by
      unfold Manifest.genManifest
      simp only [hgit, if_true, hnone, hafter]
    refine ⟨by rw [hgen], ?_, ?_, ?_⟩
    · intro s
      rw [hgen]
      simp
    · intro e2 hcontra
      rw [hnone] at hcontra
      cases hcontra
    · intro _
      rw [hgen]
  · have hgen : Manifest.genManifest env = ([], .error e) := by
      unfold Manifest.genManifest
      simp only [hgit, if_true, hsome, hparse, hafter]
    refine ⟨by rw [hgen], ?_, ?_, ?_⟩
    · intro s
      rw [hgen]
      simp
    · intro e2 h2
      rw [hgen]
    · intro hcontra
      rw [hsome] at hcontra
      cases hcontra

/-- The repository state of the C6 counterexample: git repo, no
`manifest.lua`, a github remote, and no `packages` directory. -/
def envC6 : GenEnv :=
  { isGitRepo := true, manifestFile := none, head := some hdW,
    remotes := [some "github"], packagesDir := none }

/-- C6 counterexample: on a repository lacking `packages`, generation does
fail with the no-packages-directory error, but the failed run is not
write-free — it has already created an empty `manifest.lua`. -/
theorem missing_packages_dir_creates_file :
    Manifest.genManifest envC6 = ([.createEmptyManifest], .error .noPackagesDirectory) ∧
    FsWrite.createEmptyManifest ∈ (Manifest.genManifest envC6).1 :=
  ⟨rfl, by decide⟩

/-- C6 amended: on a repository lacking `packages` (that gets that far:
git repo, readable head, resolvable repo URL), generation fails with the
no-packages-directory error and never writes the serialized manifest; a
pre-existing `manifest.lua` is untouched, while an absent one is created
empty by the failed run. -/
theorem gen_missing_packages_dir (env : GenEnv) (hd : GitHead) (pre : Manifest)
    (hgit : env.isGitRepo = true)
    (hh : env.head = some hd)
    (hpkg : env.packagesDir = none)
    (hfile : (env.manifestFile = none ∧ pre = Manifest.defaultValue) ∨
             (∃ exec, env.manifestFile = some exec ∧ Manifest.parseRun exec = .returned pre))
    (hurl : ∃ u, resolveRepo pre.repo env.remotes = .ok u) :
    (Manifest.genManifest env).2 = .error .noPackagesDirectory ∧
    (∀ s, FsWrite.writeManifest s ∉ (Manifest.genManifest env).1) ∧
    (∀ exec, env.manifestFile = some exec → (Manifest.genManifest env).1 = []) ∧
    (env.manifestFile = none → (Manifest.genManifest env).1 = [.createEmptyManifest]) := by
  obtain ⟨u, hu⟩ := hurl
  have hafter : genAfterParse env pre = .error .noPackagesDirectory := by
    unfold genAfterParse
    simp only [hh, hu, hpkg]
  exact genManifest_of_afterParse_error env pre _ hgit hfile hafter

def envC6pre : GenEnv :=
  { isGitRepo := true, manifestFile := some execPre, head := some hdW,
    remotes := [], packagesDir := none }

/-- Concrete instantiation of `gen_missing_packages_dir`: with a
pre-existing manifest file the failed run issues no write at all. -/
theorem gen_missing_packages_dir_witness :
    (Manifest.genManifest envC6pre).2 = .error .noPackagesDirectory ∧
    (Manifest.genManifest envC6pre).1 = [] :=
  ⟨(gen_missing_packages_dir envC6pre hdW mPre rfl rfl rfl
      (Or.inr ⟨execPre, rfl, rfl⟩) ⟨"x", rfl⟩).1,
   (gen_missing_packages_dir envC6pre hdW mPre rfl rfl rfl
      (Or.inr ⟨execPre, rfl, rfl⟩) ⟨"x", rfl⟩).2.2.1 execPre rfl⟩

/-- A nested directory anywhere after well-formed files fails the
contents scan with the nested-content error. -/
theorem processContents_nested (u b pn d : String) (rest : List DirEntry) :
    ∀ (files : List DirEntry), (∀ x ∈ files, ∃ n bs, x = DirEntry.file n bs) →
    processContents u b pn (files ++ DirEntry.dir d :: rest) =
      .error (.unsupportedNestedContent pn) := by
  intro files
  induction files with
  | nil => intro _; simp [processContents]
  | cons x tl ih =>
      intro hall
      obtain ⟨n, bs, rfl⟩ := hall x (List.mem_cons_self _ _)
      have ih2 := ih (fun y hy => hall y (List.mem_cons_of_mem _ hy))
      simp [processContents, ih2, Bind.bind, Except.bind]

/-- The repository state of the C5 counterexample: one package directory
`p` containing a subdirectory, and no pre-existing `manifest.lua`. -/
def envC5 : GenEnv :=
  { isGitRepo := true, manifestFile := none, head := some hdW,
    remotes := [some "github"],
    packagesDir := some [⟨"p", some "1.0", some "c", [.dir "sub"]⟩] }

/-- C5 counterexample: a nested directory does make generation fail with
the nested-content error before any manifest write, but the on-disk
manifest state is not unchanged — the failed run has already created an
empty `manifest.lua`. -/
theorem nested_content_creates_file :
    Manifest.genManifest envC5 =
      ([.createEmptyManifest], .error (.unsupportedNestedContent "p")) ∧
    FsWrite.createEmptyManifest ∈ (Manifest.genManifest envC5).1 :=
  ⟨rfl, by decide⟩

/-- C5 amended: a package directory containing a subdirectory makes
generation fail with the nested-content error, and the serialized
manifest is never written by such a run; a pre-existing `manifest.lua` is
untouched (an absent one has been created empty). -/
theorem gen_nested_content (env : GenEnv) (hd : GitHead) (pre : Manifest) (p : PackageDir)
    (ver commit d : String) (files rest : List DirEntry)
    (hgit : env.isGitRepo = true)
    (hh : env.head = some hd)
    (hfile : (env.manifestFile = none ∧ pre = Manifest.defaultValue) ∨
             (∃ exec, env.manifestFile = some exec ∧ Manifest.parseRun exec = .returned pre))
    (hurl : ∃ u, resolveRepo pre.repo env.remotes = .ok u)
    (hpkg : env.packagesDir = some [p])
    (hver : p.version = some ver) (hcom : p.commit = some commit)
    (hcont : p.contents = files ++ DirEntry.dir d :: rest)
    (hfiles : ∀ x ∈ files, ∃ n bs, x = DirEntry.file n bs) :
    (Manifest.genManifest env).2 = .error (.unsupportedNestedContent p.name) ∧
    (∀ s, FsWrite.writeManifest s ∉ (Manifest.genManifest env).1) ∧
    (∀ exec, env.manifestFile = some exec → (Manifest.genManifest env).1 = []) := by
  obtain ⟨u, hu⟩ := hurl
  have hproc : ∀ (m : Manifest), processPackages u hd.branch m [p] =
      .error (.unsupportedNestedContent p.name) := by
    intro m
    unfold processPackages processPackage
    simp only [hver, hcom, hcont,
      processContents_nested u hd.branch p.name d rest files hfiles,
      Bind.bind, Except.bind]
  have hafter : genAfterParse env pre = .error (.unsupportedNestedContent p.name) := by
    unfold genAfterParse
    simp only [hh, hu, hpkg, hproc]
  obtain ⟨g1, g2, g3, g4⟩ :=
    genManifest_of_afterParse_error env pre _ hgit hfile hafter
  exact ⟨g1, g2, g3⟩

def pdC5 : PackageDir := ⟨"p", some "1.0", some "c", [.file "a" [104], .dir "sub"]⟩

def envC5pre : GenEnv :=
  { isGitRepo := true, manifestFile := some execPre, head := some hdW,
    remotes := [], packagesDir := some [pdC5] }

/-- Concrete instantiation of `gen_nested_content`: with a pre-existing
manifest file, the nested-content failure issues no write at all. -/
theorem gen_nested_content_witness :
    (Manifest.genManifest envC5pre).2 = .error (.unsupportedNestedContent "p") ∧
    (Manifest.genManifest envC5pre).1 = [] :=
  ⟨(gen_nested_content envC5pre hdW mPre pdC5 "1.0" "c" "sub" [.file "a" [104]] []
      rfl rfl (Or.inr ⟨execPre, rfl, rfl⟩) ⟨"x", rfl⟩ rfl rfl rfl rfl
      (by
        intro x hx
        rw [List.mem_singleton] at hx
        exact ⟨"a", [104], hx⟩)).1,
   (gen_nested_content envC5pre hdW mPre pdC5 "1.0" "c" "sub" [.file "a" [104]] []
      rfl rfl (Or.inr ⟨execPre, rfl, rfl⟩) ⟨"x", rfl⟩ rfl rfl rfl rfl
      (by
        intro x hx
        rw [List.mem_singleton] at hx
        exact ⟨"a", [104], hx⟩)).2.2 execPre rfl⟩

/- ## Claim C9: the digest -/

/-- Bounds invariant of the SHA-1 chaining state: five 32-bit words. -/
def stBounded (s : Sha1St) : Prop :=
  s.1 < 4294967296 ∧ s.2.1 < 4294967296 ∧ s.2.2.1 < 4294967296 ∧
  s.2.2.2.1 < 4294967296 ∧ s.2.2.2.2 < 4294967296

/-- Each block compression ends in a mod-2^32 reduction per word. -/
theorem sha1Block_bounded (h : Sha1St) (block : List Nat) :
    stBounded (sha1Block h block) := by
  obtain ⟨h0, h1, h2, h3, h4⟩ := h
  rcases hfv : (List.range 80).foldl (sha1Round (sha1Expand block 64)) (h0, h1, h2, h3, h4)
    with ⟨a, b, c, d, e⟩
  simp only [sha1Block, hfv]
  unfold stBounded
  refine ⟨?_, ?_, ?_, ?_, ?_⟩ <;> exact Nat.mod_lt _ (by norm_num)

/-- Folding block compressions from any bounded state stays bounded. -/
theorem foldl_sha1Block_bounded (bs : List (List Nat)) :
    ∀ st : Sha1St, stBounded st → stBounded (bs.foldl sha1Block st) := by
  induction bs with
  | nil => intro st hst; exact hst
  | cons b tl ih =>
      intro st _
      rw [List.foldl_cons]
      exact ih (sha1Block st b) (sha1Block_bounded st b)

/-- The final chaining state consists of five 32-bit words. -/
theorem sha1State_bounded (msg : List Nat) : stBounded (sha1State msg) :=
  foldl_sha1Block_bounded _ sha1Init (by unfold stBounded sha1Init; norm_num)

/-- The base-2^32 packing of a state, as `sha1Nat` computes it. -/
def sha1Pack (s : Sha1St) : Nat :=
  (((s.1 * 4294967296 + s.2.1) * 4294967296 + s.2.2.1) * 4294967296 +
    s.2.2.2.1) * 4294967296 + s.2.2.2.2

theorem sha1Nat_eq_pack (msg : List Nat) : sha1Nat msg = sha1Pack (sha1State msg) := rfl

/-- Base-2^32 packing is injective on bounded states. -/
theorem sha1Pack_inj (s t : Sha1St) (hs : stBounded s) (ht : stBounded t)
    (h : sha1Pack s = sha1Pack t) : s = t := by
  obtain ⟨a1, b1, c1, d1, e1⟩ := s
  obtain ⟨a2, b2, c2, d2, e2⟩ := t
  obtain ⟨hs1, hs2, hs3, hs4, hs5⟩ := hs
  obtain ⟨ht1, ht2, ht3, ht4, ht5⟩ := ht
  simp only [sha1Pack] at h
  simp only at hs1 hs2 hs3 hs4 hs5 ht1 ht2 ht3 ht4 ht5
  have : a1 = a2 ∧ b1 = b2 ∧ c1 = c2 ∧ d1 = d2 ∧ e1 = e2 := by omega
  obtain ⟨rfl, rfl, rfl, rfl, rfl⟩ := this
  rfl

/-- Equal numeric digests force equal hex digests. -/
theorem sha1Hex_eq_of_nat_eq (m1 m2 : List Nat) (h : sha1Nat m1 = sha1Nat m2) :
    sha1Hex m1 = sha1Hex m2 := by
  have hst : sha1State m1 = sha1State m2 :=
    sha1Pack_inj _ _ (sha1State_bounded m1) (sha1State_bounded m2)
      (by rw [← sha1Nat_eq_pack, ← sha1Nat_eq_pack]; exact h)
  unfold sha1Hex
  rw [hst]

/-- The numeric digest is a 160-bit value. -/
theorem sha1Nat_lt (msg : List Nat) : sha1Nat msg < 2 ^ 160 := by
  obtain ⟨q1, q2, q3, q4, q5⟩ := sha1State_bounded msg
  rw [sha1Nat_eq_pack]
  unfold sha1Pack
  have h160 : (2:Nat) ^ 160 = 1461501637330902918203684832716283019655932542976 := by
    norm_num
  rw [h160]
  omega

/-- The little-endian base-256 digits of a number, `n` of them. -/
def bytesOfAux : Nat → Nat → List Nat
  | 0, _ => []
  | n + 1, i => (i % 256) :: bytesOfAux n (i / 256)

/-- Reassemble a byte list into a number. -/
def fromBytes : List Nat → Nat
  | [] => 0
  | b :: bs => b + 256 * fromBytes bs

theorem bytesOfAux_length (n : Nat) : ∀ i, (bytesOfAux n i).length = n := by
  induction n with
  | zero => intro i; rfl
  | succ n ih =>
      intro i
      simp [bytesOfAux, ih]

theorem bytesOfAux_lt (n : Nat) : ∀ i, ∀ x ∈ bytesOfAux n i, x < 256 := by
  induction n with
  | zero => intro i x hx; simp [bytesOfAux] at hx
  | succ n ih =>
      intro i x hx
      rw [bytesOfAux, List.mem_cons] at hx
      rcases hx with rfl | hx
      · exact Nat.mod_lt _ (by norm_num)
      · exact ih (i / 256) x hx

theorem fromBytes_bytesOfAux (n : Nat) : ∀ i, i < 256 ^ n →
    fromBytes (bytesOfAux n i) = i := by
  induction n with
  | zero =>
      intro i hi
      interval_cases i
      rfl
  | succ n ih =>
      intro i hi
      have hdiv : i / 256 < 256 ^ n := by
        rw [Nat.div_lt_iff_lt_mul (by norm_num : 0 < 256)]
        calc i < 256 ^ (n + 1) := hi
          _ = 256 ^ n * 256 := by rw [Nat.pow_succ]
      rw [bytesOfAux, fromBytes, ih (i / 256) hdiv, Nat.mod_add_div]

/-- C9 counterexample: the digest is a fixed 160-bit hash of
arbitrary-length input, so it cannot distinguish all files: there exist
two distinct byte sequences of equal length with the same hex digest
(pigeonhole over the 21-byte inputs). -/
theorem sha1_not_injective :
    ∃ b₁ b₂ : List Nat, (∀ x ∈ b₁, x < 256) ∧ (∀ x ∈ b₂, x < 256) ∧
      b₁ ≠ b₂ ∧ b₁.length = b₂.length ∧ sha1Hex b₁ = sha1Hex b₂ := by
  have hcard : Fintype.card (Fin (2 ^ 160)) < Fintype.card (Fin (2 ^ 168)) := by
    simp only [Fintype.card_fin]
    exact Nat.pow_lt_pow_right (by norm_num) (by norm_num)
  obtain ⟨i, j, hne, heq⟩ :=
    Fintype.exists_ne_map_eq_of_card_lt
      (fun i : Fin (2 ^ 168) => (⟨sha1Nat (bytesOfAux 21 i.1), sha1Nat_lt _⟩ : Fin (2 ^ 160)))
      hcard
  have hpow : (256:Nat) ^ 21 = 2 ^ 168 := by norm_num
  have hi : i.1 < 256 ^ 21 := by rw [hpow]; exact i.2
  have hj : j.1 < 256 ^ 21 := by rw [hpow]; exact j.2
  refine ⟨bytesOfAux 21 i.1, bytesOfAux 21 j.1, bytesOfAux_lt 21 i.1, bytesOfAux_lt 21 j.1,
    ?_, by rw [bytesOfAux_length, bytesOfAux_length], ?_⟩
  · intro hcontra
    apply hne
    apply Fin.ext
    calc i.1 = fromBytes (bytesOfAux 21 i.1) := (fromBytes_bytesOfAux 21 i.1 hi).symm
      _ = fromBytes (bytesOfAux 21 j.1) := by rw [hcontra]
      _ = j.1 := fromBytes_bytesOfAux 21 j.1 hj
  · have hnat : sha1Nat (bytesOfAux 21 i.1) = sha1Nat (bytesOfAux 21 j.1) := by
      have := congrArg Fin.val heq
      simpa using this
    exact sha1Hex_eq_of_nat_eq _ _ hnat

set_option maxRecDepth 40000 in
/-- C9 amended: the digest is the lowercase hex SHA-1 of the exact bytes —
the two-byte file `"hi"` digests to `SHA-1("hi")` — hashing equal content
yields equal hex strings, and a one-byte change does change the digest on
concrete inputs (though, being a fixed 160-bit hash, it is not injective
on all inputs — see the counterexample). -/
theorem sha1_digest_properties :
    sha1Hex [104, 105] = "c22b5f9178342609428d6f51b2c5af4c0bde6a42" ∧
    (∀ b₁ b₂ : List Nat, b₁ = b₂ → sha1Hex b₁ = sha1Hex b₂) ∧
    sha1Hex [104, 105] ≠ sha1Hex [104, 106] := by
  refine ⟨by decide, ?_, by decide⟩
  intro b₁ b₂ h
  rw [h]

set_option maxRecDepth 40000 in
/-- Concrete instantiation of `sha1_digest_properties`. -/
theorem sha1_digest_properties_witness :
    sha1Hex [104, 105] = sha1Hex [104, 105] ∧
    sha1Hex [104, 105] = "c22b5f9178342609428d6f51b2c5af4c0bde6a42" :=
  ⟨sha1_digest_properties.2.1 [104, 105] [104, 105] rfl, sha1_digest_properties.1⟩
